import Mathlib

/-!
Shallow embedding of the GitHub activity metric extractor core
(src/github-client.ts and src/index.ts).

Modelling conventions:
* Timestamps are `Int` milliseconds.  `ConfigM.startMs` is the instant
  denoted by `new Date(startDate)` and `ConfigM.endMs` the instant denoted by
  `new Date(endDate + "T23:59:59")`; the date-string parsing itself is not
  modelled.
* A thrown JavaScript `Error` carrying a message and possibly an HTTP
  `status` own-property is `HttpError`.  The wrapper class `GitHubApiError`
  (repoName, operation, originalError) and unwrapped errors together form
  `GError`.  A `GitHubApiError` instance has no own `status` property, which
  is what the source code checks with `"status" in error`; `GError.ownStatus`
  reproduces that check.
* The GitHub server is modelled as immutable per-repository data
  (`Server`): the default-branch commit history newest first, the pull
  requests sorted by creation time descending, the releases sorted
  descending, the issues sorted by update time descending, and a two-commit
  comparison oracle.  Transport failures are injected per operation through
  `Faults`: when a fault is set, every request of that operation fails with
  the given error on every attempt.
* Paged endpoints serve `(page - 1) * per_page` offsets of the fixed
  filtered list (`paginate`).  The client-side page loops are translated as
  recursion on the not-yet-served suffix of that list: requesting page
  `n + 1` after a full page is the same as recursing on `remaining.drop P`.
  The loops take the effective page size as `pm1 + 1` (the source page size
  `config.options.pageSize || 100` is never 0, see `ConfigM.pageSizeEff`).
* `async`/`Promise` plumbing is pure: a fallible operation returns
  `Except`.  The `Promise.all` of the five independent collectors in
  `getRepoStats` is sequenced in array order; each collector is a pure
  function of the server data, so the value of a successful collection does
  not depend on completion order.  Completion-order independence of the
  batch scheduler is modelled explicitly in `processBatches` through an
  adversarial reordering of each batch before the index-keyed write-back.
-/

/-- A thrown Error value: its message and, when present, the HTTP status
own-property (`error.status`). -/
structure HttpError where
  message : String
  status : Option Nat
deriving DecidableEq, Repr

/-- Errors flowing through the client: either a context wrapper built by
`withRetry` (class `GitHubApiError`: repository name, operation name,
original error) or an unwrapped error. -/
inductive GError where
  | api (repoName operation : String) (originalError : HttpError)
  | raw (err : HttpError)
deriving DecidableEq, Repr

/-- Decidable equality for fallible results, so that concrete runs of the
embedded operations can be checked by evaluation. -/
instance {ε α : Type} [DecidableEq ε] [DecidableEq α] :
    DecidableEq (Except ε α) := fun a b =>
  match a, b with
  | .ok x, .ok y =>
    if h : x = y then isTrue (by rw [h])
    else isFalse (by intro hc; cases hc; exact h rfl)
  | .error x, .error y =>
    if h : x = y then isTrue (by rw [h])
    else isFalse (by intro hc; cases hc; exact h rfl)
  | .ok _, .error _ => isFalse (by intro hc; cases hc)
  | .error _, .ok _ => isFalse (by intro hc; cases hc)

/-- The JavaScript test `error instanceof Error && "status" in error` reads
the own `status` property of the error value.  A `GitHubApiError` does not have
one — only its `originalError` does. -/
def GError.ownStatus : GError → Option Nat
  | .api _ _ _ => none
  | .raw e => e.status

/-- Message fragments classified as retryable connection failures
(github-client.ts lines 20-28). -/
def retryableMessageParts : List String :=
  ["other side closed", "econnreset", "socket hang up", "etimedout",
   "enotfound", "network", "timeout"]

/-- JavaScript `message.toLowerCase()`, character by character. -/
def strToLower (s : String) : String :=
  ⟨s.toList.map Char.toLower⟩

/-- JavaScript `haystack.includes(needle)` on strings, as a contiguous
subsequence test on the character lists. -/
def strIncludes (haystack needle : String) : Bool :=
  haystack.toList.tails.any (fun t => needle.toList.isPrefixOf t)

/-- Translation of `isRetryableError` (github-client.ts lines 16-40):
connection-level failures recognised by message fragment, and HTTP statuses
403/429/502/503/504. -/
def isRetryableError (e : HttpError) : Bool :=
  retryableMessageParts.any (fun kw => strIncludes (strToLower e.message) kw) ||
    (match e.status with
     | some s => s == 403 || s == 429 || s == 502 || s == 503 || s == 504
     | none => false)

def MAX_RETRIES : Nat := 3

def INITIAL_RETRY_DELAY_MS : Nat := 1000

/-- Backoff delay computed before sleeping in `withRetry` (github-client.ts
lines 147-152): exponential `1000 * 2 ^ (attempt - 1)`, with a 60000 ms
floor when the failure carries HTTP status 403. -/
def retryDelayMs (attempt : Nat) (e : HttpError) : Nat :=
  let d := INITIAL_RETRY_DELAY_MS * 2 ^ (attempt - 1)
  if e.status = some 403 then max d 60000 else d

/-- Observable outcome of one `withRetry` run: the returned value or the
propagated wrapped error, how many times the operation body ran, and the
backoff delays slept between attempts. -/
structure RetryOutcome (α : Type) where
  result : Except GError α
  attempts : Nat
  delays : List Nat
deriving Repr

/-- Translation of the `for (attempt = 1; attempt <= MAX_RETRIES; ...)` loop
of `withRetry` (github-client.ts lines 128-160).  `rem` counts the attempts
still allowed including the current one, so `rem = 1` is the
`attempt === MAX_RETRIES` case; `attempt` is the 1-based attempt number.
The operation result may depend on the attempt number.  The `rem = 0` case
corresponds to the statements after the loop, which are unreachable because
the last iteration always returns or throws. -/
def withRetryLoop (op : Nat → Except HttpError α) (repoName operationName : String) :
    Nat → Nat → RetryOutcome α
  | 0, _ => ⟨.error (.raw ⟨"unreachable: loop exit", none⟩), 0, []⟩
  | rem + 1, attempt =>
    match op attempt with
    | .ok v => ⟨.ok v, 1, []⟩
    | .error e =>
      if isRetryableError e = false ∨ rem = 0 then
        ⟨.error (.api repoName operationName e), 1, []⟩
      else
        let d := retryDelayMs attempt e
        let r := withRetryLoop op repoName operationName rem (attempt + 1)
        ⟨r.result, r.attempts + 1, d :: r.delays⟩

/-- `withRetry` (github-client.ts lines 119-167), instrumented with the
attempt count and the slept delays. -/
def withRetry (op : Nat → Except HttpError α) (repoName operationName : String) :
    RetryOutcome α :=
  withRetryLoop op repoName operationName MAX_RETRIES 1

/-- `withRetry` applied to an operation whose outcome does not vary between
attempts (a deterministic request against immutable server data); only the
resulting value or propagated error is kept. -/
def withRetryC (op : Except HttpError α) (repoName operationName : String) :
    Except GError α :=
  (withRetry (fun _ => op) repoName operationName).result

/-- Translation of `checkRateLimit` (github-client.ts lines 100-109) as the
decision it makes: `some w` means sleeping `w` seconds, `none` means
proceeding without waiting.  `remaining` and `resetEpoch` are the tracked
quota state, `now` is `Math.floor(Date.now() / 1000)`. -/
def checkRateLimit (remaining resetEpoch now : Int) : Option Int :=
  if remaining < 100 then
    let waitSeconds := max 0 (resetEpoch - now) + 5
    if 0 < waitSeconds ∧ waitSeconds < 3600 then some waitSeconds else none
  else none

/-- Configuration surface consumed by the core (types.ts `Config`), with the
two boundary dates already converted to instants: `startMs` is
`new Date(startDate).getTime()` and `endMs` is
`new Date(endDate + "T23:59:59").getTime()`. -/
structure ConfigM where
  startMs : Int
  endMs : Int
  pageSize : Nat
  skipLineStats : Bool
  maxConcurrentRequests : Nat
deriving DecidableEq, Repr

/-- The page size actually used (`this.config.options.pageSize || 100`,
github-client.ts lines 192-194): 0 is falsy, so the result is never 0. -/
def ConfigM.pageSizeEff (cfg : ConfigM) : Nat :=
  if cfg.pageSize = 0 then 100 else cfg.pageSize

/-- One commit as the API reports it: SHA (used only as a comparison key), commit timestamp,
parent SHAs, its own addition/deletion stats, and author identity fields
(`commit.author?.login`, `commit.commit.author?.email`). -/
structure Commit where
  sha : Nat
  timestamp : Int
  parents : List Nat
  additions : Nat
  deletions : Nat
  authorLogin : Option String
  authorEmail : Option String
deriving DecidableEq, Repr

structure PullRequest where
  createdAt : Int
deriving DecidableEq, Repr

structure Release where
  publishedAt : Option Int
  createdAt : Int
deriving DecidableEq, Repr

structure Issue where
  createdAt : Int
  closedAt : Option Int
  updatedAt : Int
  isPullRequest : Bool
deriving DecidableEq, Repr

/-- Per-file addition/deletion counts of a two-commit comparison. -/
structure CompareFile where
  additions : Nat
  deletions : Nat
deriving DecidableEq, Repr

structure LineDelta where
  added : Nat
  deleted : Nat
deriving DecidableEq, Repr

structure RepoInfo where
  name : String
  isArchived : Bool
deriving DecidableEq, Repr

/-- types.ts `RepoStats`. -/
structure RepoStats where
  name : String
  isArchived : Bool
  commits : Nat
  linesAdded : Nat
  linesDeleted : Nat
  totalLines : Int
  pullRequests : Nat
  contributors : Nat
  contributorsList : List String
  issuesCreated : Nat
  issuesClosed : Nat
  releases : Nat
deriving DecidableEq, Repr

/-- Immutable repository data held by the server for one repository:
the default branch name, the default-branch commit history newest first,
pull requests sorted by creation time descending, releases sorted
descending, issues sorted by update time descending, and the comparison
endpoint as an oracle from (base, head) to the per-file diff list. -/
structure Server where
  defaultBranch : String
  commits : List Commit
  pulls : List PullRequest
  releases : List Release
  issues : List Issue
  compareFiles : Nat → Nat → List CompareFile

/-- Transport fault injection: when a field is `some e`, every request of
that operation fails with `e` on every attempt.  One field per retry-wrapped
operation group: `listCommitsErr` covers the commit listings issued by the
commit count and by the line-delta resolution, while the contributor page
requests (the "fetching contributors" operation) have their own
`contributorsErr` — independent requests over the same data can fail
independently. -/
structure Faults where
  repoGetErr : Option HttpError
  listCommitsErr : Option HttpError
  getCommitErr : Option HttpError
  compareErr : Option HttpError
  pullsErr : Option HttpError
  releasesErr : Option HttpError
  issuesErr : Option HttpError
  contributorsErr : Option HttpError
deriving DecidableEq, Repr

def noFaults : Faults := ⟨none, none, none, none, none, none, none, none⟩

/-- Server-side paging: page `page` (1-based) of `l` with page size
`perPage`. -/
def paginate (perPage page : Nat) (l : List α) : List α :=
  (l.drop ((page - 1) * perPage)).take perPage

/-- Server-side `since`/`until` filtering of `repos.listCommits`: a commit
at `t` is served iff `since ≤ t` (when given) and `t ≤ until` (when
given). -/
def inWindow (since? until? : Option Int) (t : Int) : Bool :=
  (match since? with | some s => decide (s ≤ t) | none => true) &&
    (match until? with | some u => decide (t ≤ u) | none => true)

/-- `octokit.repos.listCommits` on the default branch. -/
def reqListCommits (s : Server) (f : Faults) (since? until? : Option Int)
    (perPage page : Nat) : Except HttpError (List Commit) :=
  match f.listCommitsErr with
  | some e => .error e
  | none =>
    .ok (paginate perPage page
      (s.commits.filter (fun c => inWindow since? until? c.timestamp)))

/-- `octokit.repos.getCommit`: full detail of one commit by SHA; an unknown
ref is a 404. -/
def reqGetCommit (s : Server) (f : Faults) (ref : Nat) :
    Except HttpError Commit :=
  match f.getCommitErr with
  | some e => .error e
  | none =>
    match s.commits.find? (fun c => c.sha == ref) with
    | some c => .ok c
    | none => .error ⟨"Not Found", some 404⟩

/-- `octokit.repos.compareCommits base head`: the per-file diff list. -/
def reqCompare (s : Server) (f : Faults) (base head : Nat) :
    Except HttpError (List CompareFile) :=
  match f.compareErr with
  | some e => .error e
  | none => .ok (s.compareFiles base head)

/-- `octokit.repos.get`, used for default-branch detection. -/
def reqRepoGet (s : Server) (f : Faults) : Except HttpError String :=
  match f.repoGetErr with
  | some e => .error e
  | none => .ok s.defaultBranch

/-- Sum of per-file additions and deletions over a comparison diff
(github-client.ts lines 403-411). -/
def sumCompareFiles (files : List CompareFile) : LineDelta :=
  ⟨files.foldl (fun a fl => a + fl.additions) 0,
   files.foldl (fun a fl => a + fl.deletions) 0⟩

/-- Tail of `getLinesOfCode` once `baseSha` is resolved (github-client.ts
lines 382-413): equal SHAs mean no commits in the window, otherwise one
two-commit comparison summed over its files. -/
def compareStage (s : Server) (f : Faults) (rn : String)
    (baseSha endSha : Nat) : Except GError LineDelta :=
  if baseSha = endSha then .ok ⟨0, 0⟩
  else
    match withRetryC (reqCompare s f baseSha endSha) rn "comparing commits" with
    | .error ge => .error ge
    | .ok files => .ok (sumCompareFiles files)

/-- Body of the `try` block of `getLinesOfCode` (github-client.ts lines
289-413): resolve the head commit (last commit up to the range end), the
base commit (last commit strictly before the range start), with the
fallback through the oldest commit of the first in-range page and its
parent, then compare. -/
def getLinesOfCodeBody (cfg : ConfigM) (s : Server) (f : Faults)
    (rn : String) : Except GError LineDelta :=
  match withRetryC (reqListCommits s f none (some cfg.endMs) 1 1)
      rn "finding end commit" with
  | .error ge => .error ge
  | .ok endCommits =>
    match endCommits with
    | [] => .ok ⟨0, 0⟩
    | endCommit :: _ =>
      match withRetryC (reqListCommits s f none (some (cfg.startMs - 1)) 1 1)
          rn "finding base commit" with
      | .error ge => .error ge
      | .ok baseCommits =>
        match baseCommits with
        | baseCommit :: _ => compareStage s f rn baseCommit.sha endCommit.sha
        | [] =>
          match withRetryC
              (reqListCommits s f (some cfg.startMs) (some cfg.endMs)
                cfg.pageSizeEff 1)
              rn "finding first commit" with
          | .error ge => .error ge
          | .ok rangeCommits =>
            match rangeCommits.getLast? with
            | none => .ok ⟨0, 0⟩
            | some oldestCommit =>
              match withRetryC (reqGetCommit s f oldestCommit.sha)
                  rn "getting commit parent" with
              | .error ge => .error ge
              | .ok commitDetail =>
                match commitDetail.parents with
                | parent :: _ => compareStage s f rn parent endCommit.sha
                | [] => .ok ⟨commitDetail.additions, commitDetail.deletions⟩

/-- Translation of `getLinesOfCode` (github-client.ts lines 277-424): the
configuration opt-out, the resolution body, and the surrounding `catch`,
which re-reads the own `status` property of the caught error (absent on a
`GitHubApiError`) and converts 409/404 to `(0, 0)`. -/
def getLinesOfCode (cfg : ConfigM) (s : Server) (f : Faults) (rn : String) :
    Except GError LineDelta :=
  if cfg.skipLineStats then .ok ⟨0, 0⟩
  else
    match getLinesOfCodeBody cfg s f rn with
    | .ok v => .ok v
    | .error ge =>
      match ge.ownStatus with
      | some 409 => .ok ⟨0, 0⟩
      | some 404 => .ok ⟨0, 0⟩
      | _ => .error ge

/-- Page-loop translation of `getCommitCount` (github-client.ts lines
237-275).  `remaining` is the not-yet-served suffix of the server-side
filtered commit list, so `remaining.take (pm1 + 1)` is the next page and
recursing on `remaining.drop (pm1 + 1)` is requesting the next page number.
When a transport fault is set the page request fails on every attempt,
`withRetry` wraps and throws, and the `catch` inspects the (absent) own
`status` property of the wrapper; on success `withRetry` returns the page
unchanged, so it is elided in the fault-free branch.  `fuel` bounds the
number of page requests; every recursion consumes at least one element of
`remaining`, so the callers pass `remaining.length + 1` and the
fuel-exhausted case (marked unreachable) is never taken. -/
def commitCountLoop (rn : String) (flt : Option HttpError) (pm1 : Nat) :
    Nat → List Commit → Nat → Except GError Nat
  | 0, _, _ => .error (.raw ⟨"unreachable: page budget exhausted", none⟩)
  | fuel + 1, remaining, count =>
    match flt with
    | some e =>
      match withRetryC (.error e : Except HttpError (List Commit))
          rn "fetching commits" with
      | .ok page => .ok (count + page.length)
      | .error ge => if ge.ownStatus = some 409 then .ok 0 else .error ge
    | none =>
      if (remaining.take (pm1 + 1)).length < pm1 + 1 then
        .ok (count + (remaining.take (pm1 + 1)).length)
      else
        commitCountLoop rn none pm1 fuel (remaining.drop (pm1 + 1))
          (count + (remaining.take (pm1 + 1)).length)

/-- `getCommitCount` (github-client.ts lines 237-275): commits on the
default branch whose timestamps fall in the date range, counted page by
page. -/
def getCommitCount (cfg : ConfigM) (s : Server) (f : Faults) (rn : String) :
    Except GError Nat :=
  let filtered := s.commits.filter
    (fun c => inWindow (some cfg.startMs) (some cfg.endMs) c.timestamp)
  commitCountLoop rn f.listCommitsErr (cfg.pageSizeEff - 1)
    (filtered.length + 1) filtered 0

/-- The `for (const commit of response.data)` body of `getContributors`
(github-client.ts lines 500-505): identity is the author login when
present, else the commit author email; a falsy identity (absent, or the
empty string) is skipped; the `Set` keeps first-insertion order. -/
def addContributors : List Commit → List String → List String
  | [], acc => acc
  | c :: rest, acc =>
    match c.authorLogin <|> c.authorEmail with
    | some a =>
      addContributors rest
        (if a = "" then acc else if a ∈ acc then acc else acc ++ [a])
    | none => addContributors rest acc

/-- Page-loop translation of `getContributors` (github-client.ts lines
474-518), same paging and fuel conventions as `commitCountLoop`. -/
def contributorsLoop (rn : String) (flt : Option HttpError) (pm1 : Nat) :
    Nat → List Commit → List String → Except GError (List String)
  | 0, _, _ => .error (.raw ⟨"unreachable: page budget exhausted", none⟩)
  | fuel + 1, remaining, contributors =>
    match flt with
    | some e =>
      match withRetryC (.error e : Except HttpError (List Commit))
          rn "fetching contributors" with
      | .ok _ => .ok contributors
      | .error ge => if ge.ownStatus = some 409 then .ok [] else .error ge
    | none =>
      if (remaining.take (pm1 + 1)).isEmpty then .ok contributors
      else
        if (remaining.take (pm1 + 1)).length < pm1 + 1 then
          .ok (addContributors (remaining.take (pm1 + 1)) contributors)
        else
          contributorsLoop rn none pm1 fuel (remaining.drop (pm1 + 1))
            (addContributors (remaining.take (pm1 + 1)) contributors)

/-- `getContributors` (github-client.ts lines 474-518). -/
def getContributors (cfg : ConfigM) (s : Server) (f : Faults) (rn : String) :
    Except GError (List String) :=
  let filtered := s.commits.filter
    (fun c => inWindow (some cfg.startMs) (some cfg.endMs) c.timestamp)
  contributorsLoop rn f.contributorsErr (cfg.pageSizeEff - 1)
    (filtered.length + 1) filtered []

/-- Result of scanning one page item by item: `stopped` when the
descending-order early return fired, `finished` when the page was
exhausted. -/
inductive PageScan where
  | stopped (count : Nat)
  | finished (count : Nat)
deriving DecidableEq, Repr

/-- The `for (const pr of response.data)` body of `getPullRequestCount`
(github-client.ts lines 454-465): an item created strictly before the range
start returns the accumulated count immediately (creation-descending sort
order), an in-range item is counted. -/
def scanPullPage (start endT : Int) : List PullRequest → Nat → PageScan
  | [], count => .finished count
  | pr :: rest, count =>
    if pr.createdAt < start then .stopped count
    else if start ≤ pr.createdAt ∧ pr.createdAt ≤ endT then
      scanPullPage start endT rest (count + 1)
    else scanPullPage start endT rest count

/-- Page-loop translation of `getPullRequestCount` (github-client.ts lines
426-472), instrumented with the number of page requests issued (second
component). -/
def pullLoop (rn : String) (flt : Option HttpError) (start endT : Int)
    (pm1 : Nat) : Nat → List PullRequest → Nat → Except GError Nat × Nat
  | 0, _, _ => (.error (.raw ⟨"unreachable: page budget exhausted", none⟩), 0)
  | fuel + 1, remaining, count =>
    match flt with
    | some e =>
      match withRetryC (.error e : Except HttpError (List PullRequest))
          rn "fetching pull requests" with
      | .ok _ => (.ok count, 1)
      | .error ge => (.error ge, 1)
    | none =>
      if (remaining.take (pm1 + 1)).isEmpty then (.ok count, 1)
      else
        match scanPullPage start endT (remaining.take (pm1 + 1)) count with
        | .stopped c => (.ok c, 1)
        | .finished c =>
          if (remaining.take (pm1 + 1)).length < pm1 + 1 then (.ok c, 1)
          else
            let r := pullLoop rn none start endT pm1 fuel (remaining.drop (pm1 + 1)) c
            (r.1, r.2 + 1)

/-- `getPullRequestCount` with its request trace. -/
def getPullRequestCountT (cfg : ConfigM) (s : Server) (f : Faults)
    (rn : String) : Except GError Nat × Nat :=
  pullLoop rn f.pullsErr cfg.startMs cfg.endMs (cfg.pageSizeEff - 1)
    (s.pulls.length + 1) s.pulls 0

/-- `getPullRequestCount` (github-client.ts lines 426-472). -/
def getPullRequestCount (cfg : ConfigM) (s : Server) (f : Faults)
    (rn : String) : Except GError Nat :=
  (getPullRequestCountT cfg s f rn).1

/-- The `for (const release of response.data)` body of `getReleaseCount`
(github-client.ts lines 602-615): the publish date falls back to the
creation date, an in-range item is counted, and an item strictly before the
range start returns the count accumulated so far (descending sort
order). -/
def scanReleasePage (start endT : Int) : List Release → Nat → PageScan
  | [], count => .finished count
  | rel :: rest, count =>
    let publishedAt := rel.publishedAt.getD rel.createdAt
    let count' :=
      if start ≤ publishedAt ∧ publishedAt ≤ endT then count + 1 else count
    if publishedAt < start then .stopped count'
    else scanReleasePage start endT rest count'

/-- Page-loop translation of `getReleaseCount` (github-client.ts lines
578-626).  The whole loop body sits in a `try` whose `catch` returns 0 for
any error whatsoever ("Some repos may not have releases enabled"). -/
def releasesLoop (rn : String) (flt : Option HttpError) (start endT : Int)
    (pm1 : Nat) : Nat → List Release → Nat → Except GError Nat
  | 0, _, _ => .error (.raw ⟨"unreachable: page budget exhausted", none⟩)
  | fuel + 1, remaining, count =>
    match flt with
    | some e =>
      match withRetryC (.error e : Except HttpError (List Release))
          rn "fetching releases" with
      | .ok _ => .ok count
      | .error _ => .ok 0
    | none =>
      if (remaining.take (pm1 + 1)).isEmpty then .ok count
      else
        match scanReleasePage start endT (remaining.take (pm1 + 1)) count with
        | .stopped c => .ok c
        | .finished c =>
          if (remaining.take (pm1 + 1)).length < pm1 + 1 then .ok c
          else
            releasesLoop rn none start endT pm1 fuel (remaining.drop (pm1 + 1)) c

/-- `getReleaseCount` (github-client.ts lines 578-626). -/
def getReleaseCount (cfg : ConfigM) (s : Server) (f : Faults) (rn : String) :
    Except GError Nat :=
  releasesLoop rn f.releasesErr cfg.startMs cfg.endMs (cfg.pageSizeEff - 1)
    (s.releases.length + 1) s.releases 0

/-- The `for (const issue of response.data)` body of `getIssueStats`
(github-client.ts lines 552-569): pull requests are skipped, issues created
in range and issues closed in range are counted. -/
def scanIssuePage (start endT : Int) : List Issue → Nat → Nat → Nat × Nat
  | [], created, closed => (created, closed)
  | iss :: rest, created, closed =>
    if iss.isPullRequest then scanIssuePage start endT rest created closed
    else
      let created' :=
        if start ≤ iss.createdAt ∧ iss.createdAt ≤ endT then created + 1
        else created
      let closed' :=
        match iss.closedAt with
        | some t => if start ≤ t ∧ t ≤ endT then closed + 1 else closed
        | none => closed
      scanIssuePage start endT rest created' closed'

/-- Page-loop translation of `getIssueStats` (github-client.ts lines
520-576). -/
def issuesLoop (rn : String) (flt : Option HttpError) (start endT : Int)
    (pm1 : Nat) : Nat → List Issue → Nat → Nat → Except GError (Nat × Nat)
  | 0, _, _, _ => .error (.raw ⟨"unreachable: page budget exhausted", none⟩)
  | fuel + 1, remaining, created, closed =>
    match flt with
    | some e =>
      match withRetryC (.error e : Except HttpError (List Issue))
          rn "fetching issues" with
      | .ok _ => .ok (created, closed)
      | .error ge => .error ge
    | none =>
      if (remaining.take (pm1 + 1)).isEmpty then .ok (created, closed)
      else
        if (remaining.take (pm1 + 1)).length < pm1 + 1 then
          .ok (scanIssuePage start endT (remaining.take (pm1 + 1)) created closed)
        else
          issuesLoop rn none start endT pm1 fuel (remaining.drop (pm1 + 1))
            (scanIssuePage start endT (remaining.take (pm1 + 1)) created closed).1
            (scanIssuePage start endT (remaining.take (pm1 + 1)) created closed).2

/-- `getIssueStats` (github-client.ts lines 520-576): issues are fetched
with a server-side `since` filter on the update time, then counted as
(created-in-range, closed-in-range). -/
def getIssueStats (cfg : ConfigM) (s : Server) (f : Faults) (rn : String) :
    Except GError (Nat × Nat) :=
  let filtered := s.issues.filter (fun i => decide (cfg.startMs ≤ i.updatedAt))
  issuesLoop rn f.issuesErr cfg.startMs cfg.endMs (cfg.pageSizeEff - 1)
    (filtered.length + 1) filtered 0 0

/-- `getDefaultBranch` (github-client.ts lines 169-190) for a single
collection pass (the branch cache is transparent to one call). -/
def getDefaultBranch (s : Server) (f : Faults) (rn : String) :
    Except GError String :=
  withRetryC (reqRepoGet s f) rn "fetching default branch"

/-- The `isEmptyRepoError` helper inside `getRepoStats` (github-client.ts
lines 632-647): a `GitHubApiError` whose original error carries status
404/409/422, or a bare error carrying such a status. -/
def isEmptyRepoError : GError → Bool
  | .api _ _ orig =>
    orig.status == some 404 || orig.status == some 409 || orig.status == some 422
  | .raw e =>
    e.status == some 404 || e.status == some 409 || e.status == some 422

/-- The `safe` helper inside `getRepoStats` (github-client.ts lines
679-688): empty-history failures degrade to the default value of the collector,
everything else is rethrown. -/
def safe (x : Except GError α) (defaultValue : α) : Except GError α :=
  match x with
  | .ok v => .ok v
  | .error e => if isEmptyRepoError e then .ok defaultValue else .error e

/-- The `emptyStats` helper inside `getRepoStats` (github-client.ts lines
650-663). -/
def emptyStats (rn : String) (isArchived : Bool) : RepoStats :=
  ⟨rn, isArchived, 0, 0, 0, 0, 0, 0, [], 0, 0, 0⟩

/-- Translation of `getRepoStats` (github-client.ts lines 628-717): branch
resolution with the empty-repository short-circuit, then the five
collectors, each wrapped in `safe`, assembled into a `RepoStats` record
with `issuesCreated` and `issuesClosed` hard-coded to 0.  The source runs
the five collectors under `Promise.all`; they are sequenced here in array
order, and each is a pure function of the same immutable server data, so a
successful collection is completion-order independent. -/
def getRepoStats (cfg : ConfigM) (s : Server) (f : Faults) (ri : RepoInfo) :
    Except GError RepoStats :=
  match getDefaultBranch s f ri.name with
  | .error e =>
    if isEmptyRepoError e then .ok (emptyStats ri.name ri.isArchived)
    else .error e
  | .ok _branch => do
    let commits ← safe (getCommitCount cfg s f ri.name) 0
    let lines ← safe (getLinesOfCode cfg s f ri.name) ⟨0, 0⟩
    let pullRequests ← safe (getPullRequestCount cfg s f ri.name) 0
    let contributorsList ← safe (getContributors cfg s f ri.name) []
    let releases ← safe (getReleaseCount cfg s f ri.name) 0
    pure ⟨ri.name, ri.isArchived, commits, lines.added, lines.deleted,
      (lines.added : Int) - (lines.deleted : Int), pullRequests,
      contributorsList.length, contributorsList, 0, 0, releases⟩

/-- The consecutive batches the scheduler walks (index.ts lines 69-70:
`repos.slice(i, Math.min(i + concurrency, repos.length))` for
`i = 0, C, 2C, ...`), with the concurrency limit passed as `cm1 + 1` and a
fuel bound on the number of batches (each batch consumes at least one
repository, so the callers pass `repos.length + 1` and the fuel never runs
out). -/
def mkBatches (cm1 : Nat) : Nat → List α → List (List α)
  | 0, _ => []
  | _, [] => []
  | fuel + 1, r :: rs =>
    ((r :: rs).take (cm1 + 1)) :: mkBatches cm1 fuel ((r :: rs).drop (cm1 + 1))

/-- `batch.map(async (repo, batchIdx) => ({index: batchIndices[batchIdx],
stats}))` (index.ts lines 71-87): the (original index, collected stats)
pairs of one batch starting at offset `off`. -/
def indexPairs (g : α → β) (off : Nat) : List α → List (Nat × β)
  | [] => []
  | r :: rs => (off, g r) :: indexPairs g (off + 1) rs

/-- `for (const {index, stats} of batchResults) results[index] = stats`
(index.ts lines 91-93). -/
def writeBatch (res : List (Option β)) (pairs : List (Nat × β)) :
    List (Option β) :=
  pairs.foldl (fun r p => r.set p.1 (some p.2)) res

/-- The batch loop of `processRepos` (index.ts lines 69-94): one batch is
collected concurrently; `σ` reorders the completed
(index, stats) pairs into an arbitrary completion order before the
index-keyed write-back stores them. -/
def processBatches (g : α → β) (σ : List (Nat × β) → List (Nat × β)) :
    List (List α) → Nat → List (Option β) → List (Option β)
  | [], _, res => res
  | b :: bs, off, res =>
    processBatches g σ bs (off + b.length) (writeBatch res (σ (indexPairs g off b)))

/-- Translation of `processRepos` (index.ts lines 53-98) under a successful
run: `g` is the per-repository collection, `σ` the adversarial
completion order of each batch, `conc` the concurrency limit
(`config.options.maxConcurrentRequests`).  The result array starts as
`new Array(repos.length)` (all slots empty). -/
def processRepos (g : α → β) (σ : List (Nat × β) → List (Nat × β))
    (repos : List α) (conc : Nat) : List (Option β) :=
  processBatches g σ (mkBatches (conc - 1) (repos.length + 1) repos) 0
    (List.replicate repos.length none)

/-! Concrete fixtures used by witnesses and counterexamples: a date range
`[100, 200]` (in model milliseconds), a three-commit history lying entirely
inside that range whose root commit `exRoot` (10 additions, 2 deletions)
has no parent, a comparison oracle for the pair (root, head), and a
two-commit history lying entirely before the range. -/

def exErr500 : HttpError := ⟨"boom", some 500⟩

def exErr404 : HttpError := ⟨"nf", some 404⟩

def exCfg : ConfigM := ⟨100, 200, 10, false, 2⟩

def exCfgP2 : ConfigM := ⟨100, 200, 2, false, 2⟩

def exRoot : Commit := ⟨1, 110, [], 10, 2, some "alice", none⟩

def exMid : Commit := ⟨2, 120, [1], 3, 1, some "bob", none⟩

def exTop : Commit := ⟨3, 130, [2], 4, 0, some "alice", none⟩

def exSrv : Server :=
  ⟨"main", [exTop, exMid, exRoot], [], [],
   [⟨150, some 160, 155, false⟩, ⟨150, none, 150, true⟩],
   fun b h => if b = 1 && h = 3 then [⟨5, 1⟩] else []⟩

def exSrvOld : Server :=
  ⟨"main",
   [⟨2, 50, [1], 3, 1, some "b", none⟩, ⟨1, 40, [], 10, 2, some "a", none⟩],
   [], [], [], fun _ _ => []⟩

def exRepo : RepoInfo := ⟨"r", false⟩

/-! Helper lemmas shared by several claims. -/

theorem withRetryC_ok {α : Type} (v : α) (rn opName : String) :
    withRetryC (.ok v) rn opName = .ok v := rfl

theorem withRetryC_error {α : Type} (e : HttpError) (rn opName : String) :
    withRetryC (.error e : Except HttpError α) rn opName
      = .error (.api rn opName e) := by
  cases h : isRetryableError e <;>
    simp [withRetryC, withRetry, MAX_RETRIES, withRetryLoop, h]

theorem withRetryC_eq_error {α : Type} (op : Except HttpError α)
    (rn opName : String) (ge : GError)
    (h : withRetryC op rn opName = .error ge) :
    ∃ e, op = .error e ∧ ge = .api rn opName e := by
  cases op with
  | ok v => rw [withRetryC_ok] at h; cases h
  | error e =>
    rw [withRetryC_error] at h
    injection h with h
    exact ⟨e, rfl, h.symm⟩

/-- C9: the quota throttle check fires iff the tracked remaining-request
count is strictly below 100; when it fires, the computed wait is
`max 0 (resetEpoch - now) + 5` seconds (so 50 remaining with a reset 10
seconds away waits 15 seconds), and a computed wait of 3600 seconds or more
makes the caller proceed without waiting. -/
theorem C9_throttle_policy (remaining resetEpoch now : Int) :
    (100 ≤ remaining → checkRateLimit remaining resetEpoch now = none) ∧
    (remaining < 100 →
      (max 0 (resetEpoch - now) + 5 < 3600 →
        checkRateLimit remaining resetEpoch now
          = some (max 0 (resetEpoch - now) + 5)) ∧
      (3600 ≤ max 0 (resetEpoch - now) + 5 →
        checkRateLimit remaining resetEpoch now = none)) ∧
    checkRateLimit 50 (now + 10) now = some 15 := by
  have hpos : (0 : Int) < max 0 (resetEpoch - now) + 5 := by
    have := le_max_left (0 : Int) (resetEpoch - now)
    omega
  refine ⟨fun h => ?_, fun h => ⟨fun hw => ?_, fun hw => ?_⟩, ?_⟩
  · simp only [checkRateLimit]
    rw [if_neg (by omega)]
  · simp only [checkRateLimit]
    rw [if_pos h, if_pos ⟨hpos, hw⟩]
  · simp only [checkRateLimit]
    rw [if_pos h, if_neg (by omega)]
  · have h15 : max 0 (now + 10 - now) + 5 = (15 : Int) := by
      have : now + 10 - now = (10 : Int) := by ring
      rw [this]
      decide
    simp only [checkRateLimit, h15]
    rw [if_pos (by omega), if_pos (by omega)]

theorem C9_throttle_policy_witness :
    checkRateLimit 50 110 100 = some 15 := by
  have h := ((C9_throttle_policy 50 110 100).2.1 (by decide)).1 (by decide)
  rw [h]
  decide

/-- C5: an operation whose every attempt fails with a retryable
classification is attempted exactly 3 times by `withRetry` and then
propagates the wrapper carrying the repository name, the operation name and
the original error (whose HTTP status, when present, rides along inside
it); a fatal (non-retryable) classification propagates the wrapper after
the first attempt with no further retries. -/
theorem C5_retry_termination {α : Type} (op : Nat → Except HttpError α)
    (e : Nat → HttpError) (rn opName : String)
    (hfail : ∀ a, op a = .error (e a)) :
    ((∀ a, isRetryableError (e a) = true) →
      (withRetry op rn opName).attempts = 3 ∧
      (withRetry op rn opName).result = .error (.api rn opName (e 3))) ∧
    (isRetryableError (e 1) = false →
      (withRetry op rn opName).attempts = 1 ∧
      (withRetry op rn opName).result = .error (.api rn opName (e 1))) := by
  constructor
  · intro hr
    constructor <;>
      simp [withRetry, MAX_RETRIES, withRetryLoop, hfail, hr]
  · intro hfatal
    constructor <;>
      simp [withRetry, MAX_RETRIES, withRetryLoop, hfail, hfatal]

theorem C5_retry_termination_witness :
    (withRetry (fun _ => (.error ⟨"unavail", some 503⟩ : Except HttpError Nat))
        "r" "op").attempts = 3 ∧
    (withRetry (fun _ => (.error ⟨"unavail", some 503⟩ : Except HttpError Nat))
        "r" "op").result = .error (.api "r" "op" ⟨"unavail", some 503⟩) :=
  (C5_retry_termination (fun _ => .error ⟨"unavail", some 503⟩)
    (fun _ => ⟨"unavail", some 503⟩) "r" "op" (fun _ => rfl)).1
    (fun _ => by decide)

/-- C6: the backoff delays actually slept by a run that retries twice are
`retryDelayMs 1` and `retryDelayMs 2` of the respective failures, and
`retryDelayMs a err` equals `1000 * 2 ^ (a - 1)` milliseconds except that a
failure carrying HTTP status 403 forces a floor of 60000 ms regardless of
the attempt number. -/
theorem C6_backoff_delays {α : Type} (op : Nat → Except HttpError α)
    (e : Nat → HttpError) (rn opName : String)
    (hfail : ∀ a, op a = .error (e a))
    (hretry : ∀ a, isRetryableError (e a) = true) :
    (withRetry op rn opName).delays
      = [retryDelayMs 1 (e 1), retryDelayMs 2 (e 2)] ∧
    ∀ (a : Nat) (err : HttpError),
      retryDelayMs a err =
        if err.status = some 403 then max (1000 * 2 ^ (a - 1)) 60000
        else 1000 * 2 ^ (a - 1) := by
  constructor
  · simp [withRetry, MAX_RETRIES, withRetryLoop, hfail, hretry]
  · intro a err
    simp [retryDelayMs, INITIAL_RETRY_DELAY_MS]

theorem C6_backoff_delays_witness :
    (withRetry (fun _ => (.error ⟨"rate limited", some 403⟩ : Except HttpError Nat))
        "r" "op").delays = [60000, 60000] := by
  have hc : isRetryableError ⟨"rate limited", some 403⟩ = true := by decide
  have h := (C6_backoff_delays
    (fun _ => (.error ⟨"rate limited", some 403⟩ : Except HttpError Nat))
    (fun _ => ⟨"rate limited", some 403⟩) "r" "op" (fun _ => rfl)
    (fun _ => hc)).1
  rw [h]
  decide

theorem find?_sha_of_nodup (l : List Commit) (c : Commit)
    (hnd : (l.map Commit.sha).Nodup) (hc : c ∈ l) :
    l.find? (fun x => x.sha == c.sha) = some c := by
  induction l with
  | nil => cases hc
  | cons hd tl ih =>
    simp only [List.map_cons, List.nodup_cons] at hnd
    rcases List.mem_cons.mp hc with rfl | hmem
    · simp [List.find?]
    · have hne : (hd.sha == c.sha) = false := by
        simp only [beq_eq_false_iff_ne, ne_eq]
        intro he
        exact hnd.1 (he ▸ List.mem_map_of_mem Commit.sha hmem)
      rw [List.find?_cons, hne]
      exact ih hnd.2 hmem

/-- C10: every RepoStats record a successful collection produces has
issuesCreated = 0 and issuesClosed = 0: `getRepoStats` hard-codes both
fields and never invokes the issue collector — which exists and does
collect nonzero counts on the fixture data, as the second conjunct
shows. -/
theorem C10_issues_hardcoded_zero (cfg : ConfigM) (s : Server) (f : Faults)
    (ri : RepoInfo) (st : RepoStats)
    (h : getRepoStats cfg s f ri = .ok st) :
    (st.issuesCreated = 0 ∧ st.issuesClosed = 0) ∧
    getIssueStats exCfg exSrv noFaults "r" = .ok (1, 1) := by
  refine ⟨?_, by decide⟩
  unfold getRepoStats at h
  split at h
  · split at h
    · injection h with h
      subst h
      exact ⟨rfl, rfl⟩
    · cases h
  · simp only [Bind.bind, Except.bind, Pure.pure, Except.pure] at h
    split at h
    · cases h
    split at h
    · cases h
    split at h
    · cases h
    split at h
    · cases h
    split at h
    · cases h
    injection h with h
    subst h
    exact ⟨rfl, rfl⟩

theorem C10_issues_hardcoded_zero_witness :
    (((⟨"r", false, 3, 10, 2, 8, 0, 2, ["alice", "bob"], 0, 0, 0⟩ :
        RepoStats).issuesCreated = 0 ∧
      (⟨"r", false, 3, 10, 2, 8, 0, 2, ["alice", "bob"], 0, 0, 0⟩ :
        RepoStats).issuesClosed = 0)) ∧
    getIssueStats exCfg exSrv noFaults "r" = .ok (1, 1) :=
  C10_issues_hardcoded_zero exCfg exSrv noFaults exRepo
    ⟨"r", false, 3, 10, 2, 8, 0, 2, ["alice", "bob"], 0, 0, 0⟩ (by decide)

/-- C1 (amended): for a repository whose commits all lie inside the date
range, provided the in-range history fits in one page (at most the
configured page size), when the oldest commit is the parentless root,
`getLinesOfCode` returns the recorded additions and
deletions recorded on that root commit itself.  (Histories with more
in-range commits than the page size take the oldest commit of the first
page instead — see the counterexample.) -/
theorem C1_root_commit_fallback (cfg : ConfigM) (s : Server) (rn : String)
    (hskip : cfg.skipLineStats = false)
    (hne : s.commits ≠ [])
    (hin : ∀ c ∈ s.commits, cfg.startMs ≤ c.timestamp ∧ c.timestamp ≤ cfg.endMs)
    (hlen : s.commits.length ≤ cfg.pageSizeEff)
    (hsha : (s.commits.map Commit.sha).Nodup)
    (root : Commit) (hroot : s.commits.getLast? = some root)
    (hparent : root.parents = []) :
    getLinesOfCode cfg s noFaults rn = .ok ⟨root.additions, root.deletions⟩ := by
  have hf1 : s.commits.filter
      (fun c => inWindow none (some cfg.endMs) c.timestamp) = s.commits :=
    List.filter_eq_self.mpr (fun c hc => by simp [inWindow, (hin c hc).2])
  have hf2 : s.commits.filter
      (fun c => inWindow none (some (cfg.startMs - 1)) c.timestamp) = [] :=
    List.filter_eq_nil_iff.mpr (fun c hc => by
      simp only [inWindow, Bool.true_and]
      have := (hin c hc).1
      simp
      omega)
  have hf3 : s.commits.filter
      (fun c => inWindow (some cfg.startMs) (some cfg.endMs) c.timestamp)
      = s.commits :=
    List.filter_eq_self.mpr (fun c hc => by
      simp [inWindow, (hin c hc).1, (hin c hc).2])
  have hmem : root ∈ s.commits := List.mem_of_getLast?_eq_some hroot
  obtain ⟨c0, rest, hcons⟩ := List.exists_cons_of_ne_nil hne
  unfold getLinesOfCode
  rw [if_neg (by simp [hskip])]
  unfold getLinesOfCodeBody
  rw [show reqListCommits s noFaults none (some cfg.endMs) 1 1
      = .ok [c0] from by
    simp only [reqListCommits, noFaults, paginate]
    rw [hf1, hcons]
    simp]
  rw [withRetryC_ok]
  rw [show reqListCommits s noFaults none (some (cfg.startMs - 1)) 1 1
      = .ok [] from by simp [reqListCommits, noFaults, paginate, hf2]]
  rw [withRetryC_ok]
  rw [show reqListCommits s noFaults (some cfg.startMs) (some cfg.endMs)
        cfg.pageSizeEff 1 = .ok s.commits from by
    simp [reqListCommits, noFaults, paginate, hf3, List.take_of_length_le hlen]]
  rw [withRetryC_ok]
  dsimp only
  rw [hroot]
  dsimp only
  rw [show reqGetCommit s noFaults root.sha = .ok root from by
    simp only [reqGetCommit, noFaults]
    rw [find?_sha_of_nodup s.commits root hsha hmem]]
  rw [withRetryC_ok]
  dsimp only
  rw [hparent]

theorem C1_root_commit_fallback_witness :
    getLinesOfCode exCfg exSrv noFaults "r" = .ok ⟨10, 2⟩ := by
  rw [C1_root_commit_fallback exCfg exSrv "r" (by decide) (by decide)
    (by decide) (by decide) (by decide) exRoot (by decide) (by decide)]
  decide

/-- C1 counterexample: with page size 2, a three-commit history entirely
inside the date range whose oldest commit is the parentless root with
recorded stats (10, 2).  All the hypotheses of the claim hold, yet the
fallback examines only the first in-range page, takes the oldest commit of
that page (the middle commit), resolves its parent (the root) and returns
the comparison diff (5, 1) — not the recorded stats of the root. -/
theorem C1_counterexample :
    (∀ c ∈ exSrv.commits,
      exCfgP2.startMs ≤ c.timestamp ∧ c.timestamp ≤ exCfgP2.endMs) ∧
    exSrv.commits.getLast? = some exRoot ∧
    exRoot.parents = [] ∧
    exRoot.additions = 10 ∧ exRoot.deletions = 2 ∧
    exCfgP2.skipLineStats = false ∧
    getLinesOfCode exCfgP2 exSrv noFaults "r" = .ok ⟨5, 1⟩ ∧
    getLinesOfCode exCfgP2 exSrv noFaults "r" ≠ .ok ⟨10, 2⟩ := by
  decide

/-- C4: for a repository with at least one commit but none whose timestamp
falls inside the date range, the line delta is (0, 0) (the commit whose SHA
heads both the up-to-end and the strictly-before-start one-commit pages is
the same, so base equals head, or there is no commit up to the range end at
all), the commit count is 0 and the contributor identity set is empty. -/
theorem C4_zero_commits_in_range (cfg : ConfigM) (s : Server) (rn : String)
    (hrange : cfg.startMs ≤ cfg.endMs)
    (_hne : s.commits ≠ [])
    (hout : ∀ c ∈ s.commits,
      ¬(cfg.startMs ≤ c.timestamp ∧ c.timestamp ≤ cfg.endMs)) :
    getLinesOfCode cfg s noFaults rn = .ok ⟨0, 0⟩ ∧
    getCommitCount cfg s noFaults rn = .ok 0 ∧
    getContributors cfg s noFaults rn = .ok [] := by
  have hf : s.commits.filter
      (fun c => inWindow (some cfg.startMs) (some cfg.endMs) c.timestamp) = [] :=
    List.filter_eq_nil_iff.mpr (fun c hc => by
      have := hout c hc
      simp only [inWindow, Bool.and_eq_true, decide_eq_true_eq]
      tauto)
  have hfe : s.commits.filter
        (fun c => inWindow none (some cfg.endMs) c.timestamp)
      = s.commits.filter
        (fun c => inWindow none (some (cfg.startMs - 1)) c.timestamp) :=
    List.filter_congr (fun c hc => by
      simp only [inWindow, Bool.true_and]
      exact decide_eq_decide.mpr (by have := hout c hc; omega))
  refine ⟨?_, ?_, ?_⟩
  · cases hskip : cfg.skipLineStats with
    | true => simp [getLinesOfCode, hskip]
    | false =>
      unfold getLinesOfCode
      rw [if_neg (by simp [hskip])]
      unfold getLinesOfCodeBody
      cases hbl : s.commits.filter
          (fun c => inWindow none (some (cfg.startMs - 1)) c.timestamp) with
      | nil =>
        rw [show reqListCommits s noFaults none (some cfg.endMs) 1 1
            = .ok [] from by
          simp only [reqListCommits, noFaults, paginate]
          rw [hfe, hbl]
          simp]
        rw [withRetryC_ok]
      | cons c0 rest =>
        rw [show reqListCommits s noFaults none (some cfg.endMs) 1 1
            = .ok [c0] from by
          simp only [reqListCommits, noFaults, paginate]
          rw [hfe, hbl]
          simp]
        rw [withRetryC_ok]
        rw [show reqListCommits s noFaults none (some (cfg.startMs - 1)) 1 1
            = .ok [c0] from by
          simp only [reqListCommits, noFaults, paginate]
          rw [hbl]
          simp]
        rw [withRetryC_ok]
        dsimp only
        unfold compareStage
        rw [if_pos rfl]
  · simp [getCommitCount, hf, commitCountLoop, noFaults]
  · simp [getContributors, hf, contributorsLoop, noFaults]

theorem C4_zero_commits_in_range_witness :
    getLinesOfCode exCfg exSrvOld noFaults "r" = .ok ⟨0, 0⟩ ∧
    getCommitCount exCfg exSrvOld noFaults "r" = .ok 0 ∧
    getContributors exCfg exSrvOld noFaults "r" = .ok [] :=
  C4_zero_commits_in_range exCfg exSrvOld "r" (by decide) (by decide)
    (by decide)

/-! Error-source characterization for the line-delta resolution sequence:
every error it can produce is a context wrapper around either an injected
transport fault or the intrinsic 404 of an unknown commit ref. -/
theorem reqListCommits_error (s : Server) (f : Faults) (since? until? : Option Int)
    (pp pg : Nat) (e : HttpError)
    (h : reqListCommits s f since? until? pp pg = .error e) :
    f.listCommitsErr = some e := by
  unfold reqListCommits at h
  cases hf : f.listCommitsErr with
  | none => rw [hf] at h; cases h
  | some a => rw [hf] at h; injection h with h; rw [h]

theorem reqGetCommit_error (s : Server) (f : Faults) (ref : Nat) (e : HttpError)
    (h : reqGetCommit s f ref = .error e) :
    f.getCommitErr = some e ∨ e = ⟨"Not Found", some 404⟩ := by
  unfold reqGetCommit at h
  cases hf : f.getCommitErr with
  | some a => rw [hf] at h; injection h with h; exact Or.inl (by rw [h])
  | none =>
    rw [hf] at h
    right
    cases hfind : s.commits.find? (fun c => c.sha == ref) <;> rw [hfind] at h
    · injection h with h; rw [h]
    · cases h

theorem reqCompare_error (s : Server) (f : Faults) (b hd : Nat) (e : HttpError)
    (h : reqCompare s f b hd = .error e) :
    f.compareErr = some e := by
  unfold reqCompare at h
  cases hf : f.compareErr with
  | none => rw [hf] at h; cases h
  | some a => rw [hf] at h; injection h with h; rw [h]

theorem compareStage_error (s : Server) (f : Faults) (rn : String) (b hd : Nat)
    (ge : GError) (h : compareStage s f rn b hd = .error ge) :
    ∃ e, ge = .api rn "comparing commits" e ∧ f.compareErr = some e := by
  unfold compareStage at h
  split at h
  · cases h
  · split at h
    case _ heq =>
      injection h with h
      obtain ⟨e, he, hge⟩ := withRetryC_eq_error _ _ _ _ heq
      exact ⟨e, h ▸ hge, reqCompare_error s f b hd e he⟩
    case _ heq => cases h

theorem getLinesOfCodeBody_error (cfg : ConfigM) (s : Server) (f : Faults)
    (rn : String) (ge : GError)
    (h : getLinesOfCodeBody cfg s f rn = .error ge) :
    ∃ opName e, ge = .api rn opName e ∧
      (f.listCommitsErr = some e ∨ f.getCommitErr = some e ∨
       f.compareErr = some e ∨ e = ⟨"Not Found", some 404⟩) := by
  unfold getLinesOfCodeBody at h
  split at h
  case _ heq =>
    injection h with h
    obtain ⟨e, he, hge⟩ := withRetryC_eq_error _ _ _ _ heq
    exact ⟨_, e, h ▸ hge, Or.inl (reqListCommits_error _ _ _ _ _ _ e he)⟩
  case _ heq =>
    split at h
    · cases h
    · split at h
      case _ heq2 =>
        injection h with h
        obtain ⟨e, he, hge⟩ := withRetryC_eq_error _ _ _ _ heq2
        exact ⟨_, e, h ▸ hge, Or.inl (reqListCommits_error _ _ _ _ _ _ e he)⟩
      case _ heq2 =>
        split at h
        · -- baseCommits cons: compareStage
          obtain ⟨e, hge, hc⟩ := compareStage_error _ _ _ _ _ _ h
          exact ⟨_, e, hge, Or.inr (Or.inr (Or.inl hc))⟩
        · -- baseCommits nil: fallback
          split at h
          case _ heq3 =>
            injection h with h
            obtain ⟨e, he, hge⟩ := withRetryC_eq_error _ _ _ _ heq3
            exact ⟨_, e, h ▸ hge, Or.inl (reqListCommits_error _ _ _ _ _ _ e he)⟩
          case _ heq3 =>
            split at h
            · cases h
            · split at h
              case _ heq4 =>
                injection h with h
                obtain ⟨e, he, hge⟩ := withRetryC_eq_error _ _ _ _ heq4
                rcases reqGetCommit_error _ _ _ e he with hg | hnf
                · exact ⟨_, e, h ▸ hge, Or.inr (Or.inl hg)⟩
                · exact ⟨_, e, h ▸ hge, Or.inr (Or.inr (Or.inr hnf))⟩
              case _ heq4 =>
                split at h
                · obtain ⟨e, hge, hc⟩ := compareStage_error _ _ _ _ _ _ h
                  exact ⟨_, e, hge, Or.inr (Or.inr (Or.inl hc))⟩
                · cases h

/-- C2: when every failure the line-delta resolution sequence can hit
carries HTTP status 404, 409 or 422, the collected line-delta metric (the
`safe`-wrapped `getLinesOfCode`, exactly as `getRepoStats` builds it) never
propagates an error, and it is (0, 0) whenever a failure actually
occurred at any step of the sequence. -/
theorem C2_line_delta_empty_history (cfg : ConfigM) (s : Server) (f : Faults) (rn : String)
    (hlc : ∀ e, f.listCommitsErr = some e →
      e.status = some 404 ∨ e.status = some 409 ∨ e.status = some 422)
    (hgc : ∀ e, f.getCommitErr = some e →
      e.status = some 404 ∨ e.status = some 409 ∨ e.status = some 422)
    (hcmp : ∀ e, f.compareErr = some e →
      e.status = some 404 ∨ e.status = some 409 ∨ e.status = some 422) :
    (∃ v, safe (getLinesOfCode cfg s f rn) ⟨0, 0⟩ = .ok v) ∧
    (∀ ge, getLinesOfCode cfg s f rn = .error ge →
      safe (getLinesOfCode cfg s f rn) ⟨0, 0⟩ = .ok ⟨0, 0⟩) := by
  have key : ∀ ge, getLinesOfCode cfg s f rn = .error ge →
      isEmptyRepoError ge = true := by
    intro ge hge
    unfold getLinesOfCode at hge
    split at hge
    · cases hge
    · split at hge
      · cases hge
      case _ ge0 heq =>
        split at hge
        · cases hge
        · cases hge
        case _ =>
          injection hge with hge
          subst hge
          obtain ⟨opName, e, hgeq, hsrc⟩ := getLinesOfCodeBody_error _ _ _ _ _ heq
          subst hgeq
          have hst : e.status = some 404 ∨ e.status = some 409 ∨
              e.status = some 422 := by
            rcases hsrc with h1 | h2 | h3 | h4
            · exact hlc e h1
            · exact hgc e h2
            · exact hcmp e h3
            · rw [h4]; exact Or.inl rfl
          unfold isEmptyRepoError
          rcases hst with h | h | h <;> simp [h]
  constructor
  · cases hres : getLinesOfCode cfg s f rn with
    | ok v => exact ⟨v, by simp [safe, hres]⟩
    | error ge =>
      refine ⟨⟨0, 0⟩, ?_⟩
      simp [safe, hres, key ge hres]
  · intro ge hge
    simp [safe, hge, key ge hge]

theorem C2_line_delta_empty_history_witness :
    safe (getLinesOfCode exCfg exSrv
      ⟨none, some exErr404, none, none, none, none, none, none⟩ "r") ⟨0, 0⟩
      = .ok ⟨0, 0⟩ :=
  (C2_line_delta_empty_history exCfg exSrv
    ⟨none, some exErr404, none, none, none, none, none, none⟩ "r"
    (fun _ he => by injection he with he; rw [← he]; exact Or.inl rfl)
    (fun _ he => Option.noConfusion he)
    (fun _ he => Option.noConfusion he)).2
    (.api "r" "finding end commit" exErr404) (by decide)

theorem getDefaultBranch_ok (s : Server) (f : Faults) (rn : String)
    (h : f.repoGetErr = none) :
    getDefaultBranch s f rn = .ok s.defaultBranch := by
  simp [getDefaultBranch, reqRepoGet, h, withRetryC_ok]

theorem getCommitCount_fault (cfg : ConfigM) (s : Server) (f : Faults)
    (rn : String) (e : HttpError) (h : f.listCommitsErr = some e) :
    getCommitCount cfg s f rn = .error (.api rn "fetching commits" e) := by
  simp [getCommitCount, commitCountLoop, h, withRetryC_error, GError.ownStatus]

theorem getPullRequestCount_fault (cfg : ConfigM) (s : Server) (f : Faults)
    (rn : String) (e : HttpError) (h : f.pullsErr = some e) :
    getPullRequestCount cfg s f rn
      = .error (.api rn "fetching pull requests" e) := by
  simp [getPullRequestCount, getPullRequestCountT, pullLoop, h, withRetryC_error]

theorem getReleaseCount_fault (cfg : ConfigM) (s : Server) (f : Faults)
    (rn : String) (e : HttpError) (h : f.releasesErr = some e) :
    getReleaseCount cfg s f rn = .ok 0 := by
  simp [getReleaseCount, releasesLoop, h, withRetryC_error]

theorem isEmptyRepoError_api_false (rn opn : String) (e : HttpError)
    (h404 : e.status ≠ some 404) (h409 : e.status ≠ some 409)
    (h422 : e.status ≠ some 422) :
    isEmptyRepoError (.api rn opn e) = false := by
  unfold isEmptyRepoError
  simp only [Bool.or_eq_false_iff, beq_eq_false_iff_ne, ne_eq]
  exact ⟨⟨h404, h409⟩, h422⟩

theorem safe_error_fatal {α : Type} (ge : GError) (v : α)
    (h : isEmptyRepoError ge = false) :
    safe (.error ge : Except GError α) v = .error ge := by
  simp [safe, h]

theorem getContributors_fault (cfg : ConfigM) (s : Server) (f : Faults)
    (rn : String) (e : HttpError) (h : f.contributorsErr = some e) :
    getContributors cfg s f rn = .error (.api rn "fetching contributors" e) := by
  simp [getContributors, contributorsLoop, h, withRetryC_error, GError.ownStatus]

theorem commitCountLoop_ok (rn : String) (pm1 : Nat) :
    ∀ (fuel : Nat) (remaining : List Commit) (acc : Nat),
      remaining.length < fuel →
      ∃ c, commitCountLoop rn none pm1 fuel remaining acc = .ok c := by
  intro fuel
  induction fuel with
  | zero => intro remaining acc h; omega
  | succ n ih =>
    intro remaining acc h
    rw [commitCountLoop]
    by_cases hlt : (remaining.take (pm1 + 1)).length < pm1 + 1
    · exact ⟨_, by rw [if_pos hlt]⟩
    · rw [if_neg hlt]
      refine ih (remaining.drop (pm1 + 1))
        (acc + (remaining.take (pm1 + 1)).length) ?_
      simp only [List.length_take] at hlt
      simp only [List.length_drop]
      omega

theorem getCommitCount_no_fault (cfg : ConfigM) (s : Server) (f : Faults)
    (rn : String) (h : f.listCommitsErr = none) :
    ∃ c, getCommitCount cfg s f rn = .ok c := by
  unfold getCommitCount
  rw [h]
  exact commitCountLoop_ok rn _ _ _ 0 (by omega)

theorem getLinesOfCode_error_shape (cfg : ConfigM) (s : Server) (f : Faults)
    (rn : String) (ge : GError)
    (h : getLinesOfCode cfg s f rn = .error ge) :
    ∃ opn orig, ge = .api rn opn orig := by
  unfold getLinesOfCode at h
  split at h
  · cases h
  · split at h
    · cases h
    next ge0 heq =>
      split at h
      · cases h
      · cases h
      case _ =>
        injection h with h
        subst h
        obtain ⟨opn, orig, hgeq, _⟩ := getLinesOfCodeBody_error _ _ _ _ _ heq
        exact ⟨opn, orig, hgeq⟩

/-- C3 (amended): a failure that is neither transient-retryable nor
empty-history (HTTP 404/409/422) is wrapped with repository and operation
context and aborts the whole collection of the repository when it hits the
commit, line-delta, pull-request or contributor collector, and the `safe`
wrapper never converts such an error to a default value — but the release
collector is the exception: its catch-all converts every failure, fatal
ones included, to releases = 0, so the original claim fails there.  The
line-delta conjunct covers every fatal failure of that collector (a
comparison or commit-detail fault included): whenever it errors, the error
is a context wrapper and aborts `getRepoStats`. -/
theorem C3_fatal_error_propagation (cfg : ConfigM) (s : Server) (f : Faults)
    (ri : RepoInfo) (e : HttpError)
    (_hfatal : isRetryableError e = false)
    (h404 : e.status ≠ some 404) (h409 : e.status ≠ some 409)
    (h422 : e.status ≠ some 422) :
    (f.repoGetErr = none → f.listCommitsErr = some e →
      getRepoStats cfg s f ri = .error (.api ri.name "fetching commits" e)) ∧
    (f.repoGetErr = none → f.listCommitsErr = none →
      ∀ ge, getLinesOfCode cfg s f ri.name = .error ge →
        isEmptyRepoError ge = false →
        getRepoStats cfg s f ri = .error ge ∧
        ∃ opn orig, ge = .api ri.name opn orig) ∧
    (∀ (f' : Faults) (st : RepoStats), getRepoStats cfg s f ri = .ok st →
      f.repoGetErr = none →
      f'.repoGetErr = f.repoGetErr → f'.listCommitsErr = f.listCommitsErr →
      f'.getCommitErr = f.getCommitErr → f'.compareErr = f.compareErr →
      f'.pullsErr = some e →
      getRepoStats cfg s f' ri
        = .error (.api ri.name "fetching pull requests" e)) ∧
    (∀ (f' : Faults) (st : RepoStats), getRepoStats cfg s f ri = .ok st →
      f.repoGetErr = none →
      f'.repoGetErr = f.repoGetErr → f'.listCommitsErr = f.listCommitsErr →
      f'.getCommitErr = f.getCommitErr → f'.compareErr = f.compareErr →
      f'.pullsErr = f.pullsErr → f'.contributorsErr = some e →
      getRepoStats cfg s f' ri
        = .error (.api ri.name "fetching contributors" e)) ∧
    (∀ (f' : Faults) (st : RepoStats), getRepoStats cfg s f ri = .ok st →
      f.repoGetErr = none →
      f'.repoGetErr = f.repoGetErr → f'.listCommitsErr = f.listCommitsErr →
      f'.getCommitErr = f.getCommitErr → f'.compareErr = f.compareErr →
      f'.pullsErr = f.pullsErr → f'.contributorsErr = f.contributorsErr →
      f'.releasesErr = some e →
      getRepoStats cfg s f' ri = .ok {st with releases := 0}) ∧
    (∀ (ge : GError) (v : Nat), isEmptyRepoError ge = false →
      safe (.error ge : Except GError Nat) v = .error ge) := by
  refine ⟨fun hrg hlc => ?_, fun hrg hlc ge hge hfat => ?_,
    fun f' st h hrg h0 h1 h2 h3 h4 => ?_,
    fun f' st h hrg h0 h1 h2 h3 h4 h5 => ?_,
    fun f' st h hrg h0 h1 h2 h3 h4 hcb h5 => ?_,
    fun ge v hge => safe_error_fatal ge v hge⟩
  · unfold getRepoStats
    rw [getDefaultBranch_ok s f ri.name hrg]
    simp only [Bind.bind, Except.bind, Pure.pure, Except.pure]
    rw [getCommitCount_fault cfg s f ri.name e hlc]
    rw [safe_error_fatal _ _ (isEmptyRepoError_api_false _ _ _ h404 h409 h422)]
  · constructor
    · unfold getRepoStats
      rw [getDefaultBranch_ok s f ri.name hrg]
      simp only [Bind.bind, Except.bind, Pure.pure, Except.pure]
      obtain ⟨c, hc⟩ := getCommitCount_no_fault cfg s f ri.name hlc
      rw [hc]
      rw [show safe (.ok c : Except GError Nat) 0 = .ok c from rfl]
      dsimp only
      rw [hge]
      rw [safe_error_fatal _ _ hfat]
    · exact getLinesOfCode_error_shape cfg s f ri.name ge hge
  · unfold getRepoStats at h
    rw [getDefaultBranch_ok s f ri.name hrg] at h
    simp only [Bind.bind, Except.bind, Pure.pure, Except.pure] at h
    unfold getRepoStats
    rw [getDefaultBranch_ok s f' ri.name (h0.trans hrg)]
    simp only [Bind.bind, Except.bind, Pure.pure, Except.pure]
    rw [show getCommitCount cfg s f' ri.name = getCommitCount cfg s f ri.name
        from by
      unfold getCommitCount
      rw [h1]]
    rw [show getLinesOfCode cfg s f' ri.name = getLinesOfCode cfg s f ri.name
        from by
      unfold getLinesOfCode getLinesOfCodeBody compareStage reqListCommits
        reqGetCommit reqCompare
      rw [h1, h2, h3]]
    rw [getPullRequestCount_fault cfg s f' ri.name e h4]
    split at h
    · cases h
    next commits hcommits =>
      split at h
      · cases h
      next lines hlines =>
        rw [safe_error_fatal _ _ (isEmptyRepoError_api_false _ _ _ h404 h409 h422)]
  · unfold getRepoStats at h
    rw [getDefaultBranch_ok s f ri.name hrg] at h
    simp only [Bind.bind, Except.bind, Pure.pure, Except.pure] at h
    unfold getRepoStats
    rw [getDefaultBranch_ok s f' ri.name (h0.trans hrg)]
    simp only [Bind.bind, Except.bind, Pure.pure, Except.pure]
    rw [show getCommitCount cfg s f' ri.name = getCommitCount cfg s f ri.name
        from by
      unfold getCommitCount
      rw [h1]]
    rw [show getLinesOfCode cfg s f' ri.name = getLinesOfCode cfg s f ri.name
        from by
      unfold getLinesOfCode getLinesOfCodeBody compareStage reqListCommits
        reqGetCommit reqCompare
      rw [h1, h2, h3]]
    rw [show getPullRequestCount cfg s f' ri.name
        = getPullRequestCount cfg s f ri.name from by
      unfold getPullRequestCount getPullRequestCountT
      rw [h4]]
    rw [getContributors_fault cfg s f' ri.name e h5]
    split at h
    · cases h
    next commits hcommits =>
      split at h
      · cases h
      next lines hlines =>
        split at h
        · cases h
        next pulls hpulls =>
          rw [safe_error_fatal _ _
            (isEmptyRepoError_api_false _ _ _ h404 h409 h422)]
  · unfold getRepoStats at h
    rw [getDefaultBranch_ok s f ri.name hrg] at h
    simp only [Bind.bind, Except.bind, Pure.pure, Except.pure] at h
    unfold getRepoStats
    rw [getDefaultBranch_ok s f' ri.name (h0.trans hrg)]
    simp only [Bind.bind, Except.bind, Pure.pure, Except.pure]
    rw [show getCommitCount cfg s f' ri.name = getCommitCount cfg s f ri.name
        from by
      unfold getCommitCount
      rw [h1]]
    rw [show getLinesOfCode cfg s f' ri.name = getLinesOfCode cfg s f ri.name
        from by
      unfold getLinesOfCode getLinesOfCodeBody compareStage reqListCommits
        reqGetCommit reqCompare
      rw [h1, h2, h3]]
    rw [show getPullRequestCount cfg s f' ri.name
        = getPullRequestCount cfg s f ri.name from by
      unfold getPullRequestCount getPullRequestCountT
      rw [h4]]
    rw [show getContributors cfg s f' ri.name = getContributors cfg s f ri.name
        from by
      unfold getContributors
      rw [hcb]]
    rw [getReleaseCount_fault cfg s f' ri.name e h5]
    rw [show safe (.ok 0 : Except GError Nat) 0 = .ok 0 from rfl]
    split at h
    · cases h
    next commits hcommits =>
      split at h
      · cases h
      next lines hlines =>
        split at h
        · cases h
        next pulls hpulls =>
          split at h
          · cases h
          next contribs hcontribs =>
            split at h
            · cases h
            next rels hrels =>
              injection h with h
              subst h
              rfl

theorem C3_fatal_error_propagation_witness :
    getRepoStats exCfgP2 exSrv
      ⟨none, none, none, some exErr500, none, none, none, none⟩ exRepo
      = .error (.api "r" "comparing commits" exErr500) :=
  ((C3_fatal_error_propagation exCfgP2 exSrv
    ⟨none, none, none, some exErr500, none, none, none, none⟩ exRepo exErr500
    (by decide) (by decide) (by decide) (by decide)).2.1
    rfl rfl (.api "r" "comparing commits" exErr500) (by decide) (by decide)).1


/-- C3 counterexample: a 500 failure of the release listing — neither
retryable nor one of the empty-history statuses — does not abort the
collection of the repository and is not wrapped and propagated: `getRepoStats`
succeeds and silently reports releases = 0. -/
theorem C3_counterexample :
    isRetryableError exErr500 = false ∧
    exErr500.status ≠ some 404 ∧ exErr500.status ≠ some 409 ∧
    exErr500.status ≠ some 422 ∧
    getRepoStats exCfg exSrv
      ⟨none, none, none, none, none, some exErr500, none, none⟩ exRepo
      = .ok ⟨"r", false, 3, 10, 2, 8, 0, 2, ["alice", "bob"], 0, 0, 0⟩ := by
  decide

/-! Scanning lemmas for the pull-request early stop. -/

theorem scanPullPage_early (start endT : Int) :
    ∀ (l : List PullRequest), (∃ x ∈ l, x.createdAt < start) →
      ∀ (m : List PullRequest) (acc : Nat),
        scanPullPage start endT (l ++ m) acc = scanPullPage start endT l acc ∧
        ∃ c, scanPullPage start endT l acc = .stopped c := by
  intro l
  induction l with
  | nil =>
    rintro ⟨x, hx, _⟩
    cases hx
  | cons p rest ih =>
    rintro ⟨x, hxmem, hxlt⟩ m acc
    by_cases hp : p.createdAt < start
    · constructor
      · simp [scanPullPage, hp]
      · exact ⟨acc, by simp [scanPullPage, hp]⟩
    · have hxrest : x ∈ rest := by
        rcases List.mem_cons.mp hxmem with rfl | hr
        · exact absurd hxlt hp
        · exact hr
      by_cases hin : start ≤ p.createdAt ∧ p.createdAt ≤ endT
      · have := ih ⟨x, hxrest, hxlt⟩ m (acc + 1)
        constructor
        · simpa [scanPullPage, hp, hin] using this.1
        · simpa [scanPullPage, hp, hin] using this.2
      · have := ih ⟨x, hxrest, hxlt⟩ m acc
        constructor
        · simpa [scanPullPage, hp, hin] using this.1
        · simpa [scanPullPage, hp, hin] using this.2

theorem scanPullPage_no_early (start endT : Int) :
    ∀ (l : List PullRequest), (∀ x ∈ l, ¬x.createdAt < start) →
      ∀ (acc : Nat), ∃ c, scanPullPage start endT l acc = .finished c := by
  intro l
  induction l with
  | nil => exact fun _ acc => ⟨acc, rfl⟩
  | cons p rest ih =>
    intro hno acc
    have hp : ¬p.createdAt < start := hno p (List.mem_cons_self p rest)
    have hrest : ∀ x ∈ rest, ¬x.createdAt < start :=
      fun x hx => hno x (List.mem_cons_of_mem p hx)
    by_cases hin : start ≤ p.createdAt ∧ p.createdAt ≤ endT
    · obtain ⟨c, hc⟩ := ih hrest (acc + 1)
      exact ⟨c, by simp [scanPullPage, hp, hin, hc]⟩
    · obtain ⟨c, hc⟩ := ih hrest acc
      exact ⟨c, by simp [scanPullPage, hp, hin, hc]⟩

theorem pullLoop_early_indep (rn : String) (start endT : Int) (pm1 : Nat) :
    ∀ (n : Nat) (pre rest₁ rest₂ : List PullRequest) (f₁ f₂ acc : Nat),
      pre.length ≤ n →
      (∃ x ∈ pre, x.createdAt < start) →
      pre.length < f₁ → pre.length < f₂ →
      pullLoop rn none start endT pm1 f₁ (pre ++ rest₁) acc
        = pullLoop rn none start endT pm1 f₂ (pre ++ rest₂) acc := by
  intro n
  induction n with
  | zero =>
    rintro pre _ _ _ _ _ hlen ⟨x, hx, _⟩ _ _
    rw [List.length_eq_zero.mp (Nat.le_zero.mp hlen)] at hx
    cases hx
  | succ n ih =>
    rintro pre rest₁ rest₂ f₁ f₂ acc hlen hx hf₁ hf₂
    have hprene : pre ≠ [] := by
      rintro rfl
      rcases hx with ⟨x, hx, _⟩
      cases hx
    obtain ⟨g₁, rfl⟩ : ∃ g, f₁ = g + 1 := ⟨f₁ - 1, by omega⟩
    obtain ⟨g₂, rfl⟩ : ∃ g, f₂ = g + 1 := ⟨f₂ - 1, by omega⟩
    by_cases hearly : ∃ x ∈ pre.take (pm1 + 1), x.createdAt < start
    · -- the early item sits in the current page: both runs stop on this page
      have hpage : ∀ (m : List PullRequest),
          (pre ++ m).take (pm1 + 1)
            = pre.take (pm1 + 1) ++ m.take (pm1 + 1 - pre.length) := by
        intro m
        exact List.take_append_eq_append_take
      have hne : pre.take (pm1 + 1) ≠ [] := by
        rcases hearly with ⟨x, hx, _⟩
        exact List.ne_nil_of_mem hx
      obtain ⟨c, hc⟩ := (scanPullPage_early start endT (pre.take (pm1 + 1))
        hearly [] acc).2
      unfold pullLoop
      rw [hpage rest₁, hpage rest₂]
      rw [show ((pre.take (pm1 + 1) ++ rest₁.take (pm1 + 1 - pre.length)).isEmpty)
          = false from by
        simp [List.isEmpty_iff, hne]]
      rw [show ((pre.take (pm1 + 1) ++ rest₂.take (pm1 + 1 - pre.length)).isEmpty)
          = false from by
        simp [List.isEmpty_iff, hne]]
      rw [(scanPullPage_early start endT (pre.take (pm1 + 1)) hearly
        (rest₁.take (pm1 + 1 - pre.length)) acc).1]
      rw [(scanPullPage_early start endT (pre.take (pm1 + 1)) hearly
        (rest₂.take (pm1 + 1 - pre.length)) acc).1]
      rw [hc]
    · -- no early item on this page: the page is full and both runs recurse
      have hplen : pm1 + 1 ≤ pre.length := by
        by_contra hcon
        push_neg at hcon
        have heq : pre.take (pm1 + 1) = pre := List.take_of_length_le (by omega)
        exact hearly (by rw [heq]; exact hx)
      have hpage : ∀ (m : List PullRequest),
          (pre ++ m).take (pm1 + 1) = pre.take (pm1 + 1) :=
        fun m => List.take_append_of_le_length hplen
      have hlentake : (pre.take (pm1 + 1)).length = pm1 + 1 := by
        simp [List.length_take]
        omega
      have hne : (pre.take (pm1 + 1)).isEmpty = false := by
        simp [List.isEmpty_iff]
        intro hcon
        rw [hcon] at hlentake
        simp at hlentake
      have hnoearly : ∀ x ∈ pre.take (pm1 + 1), ¬x.createdAt < start :=
        fun x hxm hlt => hearly ⟨x, hxm, hlt⟩
      obtain ⟨c, hc⟩ := scanPullPage_no_early start endT (pre.take (pm1 + 1))
        hnoearly acc
      have hdrop : ∀ (m : List PullRequest),
          (pre ++ m).drop (pm1 + 1) = pre.drop (pm1 + 1) ++ m :=
        fun m => List.drop_append_of_le_length hplen
      have hxdrop : ∃ x ∈ pre.drop (pm1 + 1), x.createdAt < start := by
        rcases hx with ⟨x, hxm, hxlt⟩
        refine ⟨x, ?_, hxlt⟩
        rcases List.mem_append.mp
            ((List.take_append_drop (pm1 + 1) pre) ▸ hxm) with hmem | hmem
        · exact absurd hxlt (hnoearly x hmem)
        · exact hmem
      unfold pullLoop
      rw [hpage rest₁, hpage rest₂, hne, hdrop rest₁, hdrop rest₂]
      simp only [Bool.false_eq_true, if_false, hc, hlentake, Nat.lt_irrefl,
        dite_false, if_false]
      rw [ih (pre.drop (pm1 + 1)) rest₁ rest₂ g₁ g₂ c
        (by simp [List.length_drop]; omega)
        hxdrop
        (by simp [List.length_drop]; omega)
        (by simp [List.length_drop]; omega)]

/-- C7: for pull requests delivered in strictly descending creation order
T5 > T4 > T3 > T2 > T1 and the range [T2, T4], the resolver counts exactly
the items at T4, T3 and T2, for every page size; and once the item strictly
before the range start is observed the loop returns immediately: its result
(count and number of page requests) does not depend on anything served
after those five items. -/
theorem C7_pull_early_stop (t1 t2 t3 t4 t5 : Int) (P : Nat) (rest : List PullRequest)
    (rn : String) (hP : 1 ≤ P)
    (h12 : t1 < t2) (h23 : t2 < t3) (h34 : t3 < t4) (h45 : t4 < t5) :
    getPullRequestCount ⟨t2, t4, P, false, 1⟩
      ⟨"main", [], [⟨t5⟩, ⟨t4⟩, ⟨t3⟩, ⟨t2⟩, ⟨t1⟩] ++ rest, [], [],
        fun _ _ => []⟩ noFaults rn = .ok 3 ∧
    getPullRequestCountT ⟨t2, t4, P, false, 1⟩
      ⟨"main", [], [⟨t5⟩, ⟨t4⟩, ⟨t3⟩, ⟨t2⟩, ⟨t1⟩] ++ rest, [], [],
        fun _ _ => []⟩ noFaults rn
      = getPullRequestCountT ⟨t2, t4, P, false, 1⟩
        ⟨"main", [], [⟨t5⟩, ⟨t4⟩, ⟨t3⟩, ⟨t2⟩, ⟨t1⟩], [], [],
          fun _ _ => []⟩ noFaults rn := by
  have hpse : (⟨t2, t4, P, false, 1⟩ : ConfigM).pageSizeEff = P := by
    simp [ConfigM.pageSizeEff]
    omega
  have hx : ∃ x ∈ ([⟨t5⟩, ⟨t4⟩, ⟨t3⟩, ⟨t2⟩, ⟨t1⟩] : List PullRequest),
      x.createdAt < t2 := ⟨⟨t1⟩, by simp, h12⟩
  have h2conj : getPullRequestCountT ⟨t2, t4, P, false, 1⟩
      ⟨"main", [], [⟨t5⟩, ⟨t4⟩, ⟨t3⟩, ⟨t2⟩, ⟨t1⟩] ++ rest, [], [],
        fun _ _ => []⟩ noFaults rn
      = getPullRequestCountT ⟨t2, t4, P, false, 1⟩
        ⟨"main", [], [⟨t5⟩, ⟨t4⟩, ⟨t3⟩, ⟨t2⟩, ⟨t1⟩], [], [],
          fun _ _ => []⟩ noFaults rn := by
    unfold getPullRequestCountT
    dsimp only [noFaults]
    rw [hpse]
    conv_rhs =>
      rw [show ([⟨t5⟩, ⟨t4⟩, ⟨t3⟩, ⟨t2⟩, ⟨t1⟩] : List PullRequest)
        = [⟨t5⟩, ⟨t4⟩, ⟨t3⟩, ⟨t2⟩, ⟨t1⟩] ++ [] from (List.append_nil _).symm]
    exact pullLoop_early_indep rn t2 t4 (P - 1) 5
      [⟨t5⟩, ⟨t4⟩, ⟨t3⟩, ⟨t2⟩, ⟨t1⟩] rest []
      ((([⟨t5⟩, ⟨t4⟩, ⟨t3⟩, ⟨t2⟩, ⟨t1⟩] : List PullRequest) ++ rest).length + 1)
      ((([⟨t5⟩, ⟨t4⟩, ⟨t3⟩, ⟨t2⟩, ⟨t1⟩] : List PullRequest)
        ++ ([] : List PullRequest)).length + 1) 0
      (by simp) hx (by simp) (by simp)
  refine ⟨?_, h2conj⟩
  unfold getPullRequestCount
  rw [h2conj]
  have n5 : ¬(t5 < t2) := by omega
  have n5r : ¬(t2 ≤ t5 ∧ t5 ≤ t4) := by omega
  have n4 : ¬(t4 < t2) := by omega
  have p4 : t2 ≤ t4 ∧ t4 ≤ t4 := by omega
  have n3 : ¬(t3 < t2) := by omega
  have p3 : t2 ≤ t3 ∧ t3 ≤ t4 := by omega
  have n2 : ¬(t2 < t2) := by omega
  have p2 : t2 ≤ t2 ∧ t2 ≤ t4 := by omega
  unfold getPullRequestCountT
  dsimp only [noFaults]
  rw [hpse]
  obtain ⟨p, rfl⟩ : ∃ p, P = p + 1 := ⟨P - 1, by omega⟩
  rcases p with _ | _ | _ | _ | q <;>
    simp [pullLoop, scanPullPage, n5, n5r, n4, p4, n3, p3, n2, p2, h12]

theorem C7_pull_early_stop_witness :
    getPullRequestCount ⟨20, 40, 2, false, 1⟩
      ⟨"main", [], [⟨50⟩, ⟨40⟩, ⟨30⟩, ⟨20⟩, ⟨10⟩] ++ [⟨5⟩], [], [],
        fun _ _ => []⟩ noFaults "r" = .ok 3 :=
  (C7_pull_early_stop 10 20 30 40 50 2 [⟨5⟩] "r" (by decide) (by decide)
    (by decide) (by decide) (by decide)).1

/-! Write-back and batching lemmas for the scheduler. -/

theorem indexPairs_map_fst {α β : Type} (g : α → β) :
    ∀ (l : List α) (off : Nat),
      (indexPairs g off l).map Prod.fst = List.range' off l.length := by
  intro l
  induction l with
  | nil => intro off; rfl
  | cons r rs ih =>
    intro off
    simp only [indexPairs, List.map_cons, List.length_cons, List.range'_succ]
    rw [ih (off + 1)]

theorem writeBatch_perm {α β : Type} (g : α → β) (off : Nat) (b : List α)
    (res : List (Option β)) (pairs : List (Nat × β))
    (hp : pairs.Perm (indexPairs g off b)) :
    writeBatch res pairs = writeBatch res (indexPairs g off b) := by
  have hnd : ((indexPairs g off b).map Prod.fst).Nodup := by
    rw [indexPairs_map_fst]
    exact List.nodup_range' _ _
  have hinj : ∀ x ∈ indexPairs g off b, ∀ y ∈ indexPairs g off b,
      x.1 = y.1 → x = y :=
    List.inj_on_of_nodup_map hnd
  unfold writeBatch
  refine hp.foldl_eq' ?_ res
  intro x hx y hy z
  by_cases hxy : x = y
  · rw [hxy]
  · have hne : x.1 ≠ y.1 := fun he =>
      hxy (hinj x (hp.mem_iff.mp hx) y (hp.mem_iff.mp hy) he)
    exact List.set_comm (some x.2) (some y.2) z hne

theorem writeBatch_effect {α β : Type} (g : α → β) :
    ∀ (b : List α) (A : List (Option β)) (k : Nat), b.length ≤ k →
      writeBatch (A ++ List.replicate k none) (indexPairs g A.length b)
        = A ++ b.map (fun r => some (g r)) ++ List.replicate (k - b.length) none := by
  intro b
  induction b with
  | nil =>
    intro A k _
    simp [writeBatch, indexPairs]
  | cons r rs ih =>
    intro A k hk
    obtain ⟨k0, rfl⟩ : ∃ k0, k = k0 + 1 :=
      ⟨k - 1, by simp at hk; omega⟩
    simp only [indexPairs, writeBatch, List.foldl_cons]
    have hset : (A ++ List.replicate (k0 + 1) none).set A.length (some (g r))
        = (A ++ [some (g r)]) ++ List.replicate k0 none := by
      rw [List.set_append_right A.length (some (g r)) (Nat.le_refl _)]
      simp [List.replicate_succ]
    rw [hset]
    have := ih (A ++ [some (g r)]) k0 (by simp at hk ⊢; omega)
    unfold writeBatch at this
    rw [show (A ++ [some (g r)]).length = A.length + 1 from by simp] at this
    rw [this]
    simp [List.append_assoc]

theorem mkBatches_flatten {α : Type} (cm1 : Nat) :
    ∀ (fuel : Nat) (l : List α), l.length < fuel →
      (mkBatches cm1 fuel l).flatten = l := by
  intro fuel
  induction fuel with
  | zero => intro l h; omega
  | succ n ih =>
    intro l h
    cases l with
    | nil => rfl
    | cons r rs =>
      rw [mkBatches, List.flatten_cons]
      rw [ih ((r :: rs).drop (cm1 + 1))
        (by simp only [List.length_drop, List.length_cons] at h ⊢; omega)]
      exact List.take_append_drop _ _

theorem mkBatches_sizes {α : Type} (cm1 : Nat) :
    ∀ (fuel : Nat) (l : List α), ∀ b ∈ mkBatches cm1 fuel l,
      b.length ≤ cm1 + 1 := by
  intro fuel
  induction fuel with
  | zero => intro l b hb; rw [mkBatches] at hb; cases hb
  | succ n ih =>
    intro l b hb
    cases l with
    | nil => cases hb
    | cons r rs =>
      rw [mkBatches] at hb
      rcases List.mem_cons.mp hb with rfl | hb2
      · simp [List.length_take]
      · exact ih _ b hb2

theorem processBatches_eq {α β : Type} (g : α → β)
    (σ : List (Nat × β) → List (Nat × β)) (hσ : ∀ l, (σ l).Perm l)
    (cm1 : Nat) :
    ∀ (fuel : Nat) (pending : List α) (A : List (Option β)),
      pending.length < fuel →
      processBatches g σ (mkBatches cm1 fuel pending) A.length
        (A ++ List.replicate pending.length none)
      = A ++ pending.map (fun r => some (g r)) := by
  intro fuel
  induction fuel with
  | zero => intro pending A h; omega
  | succ n ih =>
    intro pending A h
    cases pending with
    | nil => simp [mkBatches, processBatches]
    | cons r rs =>
      rw [mkBatches, processBatches]
      rw [writeBatch_perm g A.length ((r :: rs).take (cm1 + 1)) _ _
        (hσ (indexPairs g A.length ((r :: rs).take (cm1 + 1))))]
      rw [writeBatch_effect g ((r :: rs).take (cm1 + 1)) A (r :: rs).length
        (by simp [List.length_take])]
      have hsub : (r :: rs).length - ((r :: rs).take (cm1 + 1)).length
          = ((r :: rs).drop (cm1 + 1)).length := by
        simp [List.length_take, List.length_drop]
        omega
      rw [hsub]
      have hoff : A.length + ((r :: rs).take (cm1 + 1)).length
          = (A ++ ((r :: rs).take (cm1 + 1)).map (fun x => some (g x))).length := by
        simp
      rw [hoff]
      rw [ih ((r :: rs).drop (cm1 + 1))
        (A ++ ((r :: rs).take (cm1 + 1)).map (fun x => some (g x)))
        (by simp only [List.length_drop, List.length_cons] at h ⊢; omega)]
      rw [List.append_assoc, ← List.map_append, List.take_append_drop]

/-- C8: the batch scheduler partitions the input into consecutive batches
of size at most the concurrency limit, and the output array holds each
result of each repository at the same index the repository had in the input
list, for every completion order of each batch (modelled by an arbitrary
permutation applied to the completed (index, result) pairs of each batch before
the index-keyed write-back). -/
theorem C8_batch_order {α β : Type} (g : α → β) (σ : List (Nat × β) → List (Nat × β))
    (repos : List α) (conc : Nat) (hC : 1 ≤ conc) (hσ : ∀ l, (σ l).Perm l) :
    processRepos g σ repos conc = repos.map (fun r => some (g r)) ∧
    (mkBatches (conc - 1) (repos.length + 1) repos).flatten = repos ∧
    (∀ b ∈ mkBatches (conc - 1) (repos.length + 1) repos,
      b.length ≤ conc) := by
  refine ⟨?_,
    mkBatches_flatten (conc - 1) (repos.length + 1) repos (by omega), ?_⟩
  · unfold processRepos
    have h := processBatches_eq g σ hσ (conc - 1) (repos.length + 1) repos []
      (by omega)
    simpa using h
  · intro b hb
    have h := mkBatches_sizes (conc - 1) (repos.length + 1) repos b hb
    omega

theorem C8_batch_order_witness :
    processRepos (fun n : Nat => n * 10) (fun l => l.reverse) [1, 2, 3, 4] 2
      = [some 10, some 20, some 30, some 40] := by
  rw [(C8_batch_order (fun n : Nat => n * 10) (fun l => l.reverse)
    [1, 2, 3, 4] 2 (by decide) (fun l => List.reverse_perm l)).1]
  decide
